import Mathlib

/-!
Verification of the metadata-resolution pipeline of `src/main.py`
(CD-spine identifier app).

The pipeline core is `lookup_metadata(lines, spotify_client)`: for each
query line it performs a MusicBrainz release search (with a secondary
cover-art fetch) and, when a Spotify client is configured, a Spotify album
search; each provider block is wrapped in `try: ... except Exception: pass`.
We embed the Python dict/list values flowing through the code as a JSON
value type `JVal`, Python subscript / `.get` access as `Except`-valued
functions (an `error` models a raised exception), and the remote calls as
environment functions `String → Except Unit JVal` so that both their
responses and their raised exceptions are quantified over.
-/

namespace CDSpine

/-- JSON-like values: the Python dicts/lists/strings/numbers/None flowing
through `lookup_metadata` and through `json.dumps`/`json.loads`. -/
inductive JVal where
  | null : JVal
  | bool : Bool → JVal
  | str : String → JVal
  | num : Int → JVal
  | arr : List JVal → JVal
  | obj : List (String × JVal) → JVal
deriving Repr

/-- Python subscript `d[k]` for a string key: raises (models `KeyError` /
`TypeError`) when the value is not a dict or the key is missing. -/
def dictGet : JVal → String → Except Unit JVal
  | .obj kvs, k =>
    match kvs.lookup k with
    | some v => .ok v
    | none => .error ()
  | _, _ => .error ()

/-- Python `d.get(k, default)`: returns the default when the key is
missing, raises (models `AttributeError`) when the value is not a dict. -/
def dictGetD : JVal → String → JVal → Except Unit JVal
  | .obj kvs, k, dflt => .ok ((kvs.lookup k).getD dflt)
  | _, _, _ => .error ()

/-- Python subscript `l[i]` for an integer index: raises (models
`IndexError` / `TypeError`) when the value is not a list or the index is
out of range. -/
def listGet : JVal → Nat → Except Unit JVal
  | .arr xs, i =>
    match xs.get? i with
    | some v => .ok v
    | none => .error ()
  | _, _ => .error ()

/-- Python truthiness of a JSON value (`if release_list:` etc.). -/
def truthy : JVal → Bool
  | .null => false
  | .bool b => b
  | .str s => !s.isEmpty
  | .num n => n != 0
  | .arr xs => !xs.isEmpty
  | .obj kvs => !kvs.isEmpty

/-- The environment of remote services seen by `lookup_metadata`:
`mb_search` models `musicbrainzngs.search_releases(query=query, limit=1)`
(its parsed response, or a raised exception); `cover_get` models
`requests.get("https://coverartarchive.org/release/" + mbid).json()`,
keyed by the `mbid` value interpolated into the URL; `sp` models the
optional `spotify_client`, whose `search(q=query, type="album", limit=1)`
call is the carried function (`none` = no client configured). -/
structure Env where
  mb_search : String → Except Unit JVal
  cover_get : JVal → Except Unit JVal
  sp : Option (String → Except Unit JVal)

/-- The MusicBrainz match dict literal built at `src/main.py` lines 52-58:
all five keys are always present, in this order. -/
def mkMbMatch (artist title mbid cover_url : JVal) : JVal :=
  .obj [("source", .str "MusicBrainz"), ("artist", artist),
        ("title", title), ("mbid", mbid), ("cover_art_url", cover_url)]

/-- The Spotify match dict literal built at `src/main.py` lines 72-78:
all five keys are always present, in this order. -/
def mkSpMatch (artist title spotify_id cover_url : JVal) : JVal :=
  .obj [("source", .str "Spotify"), ("artist", artist),
        ("title", title), ("spotify_id", spotify_id),
        ("cover_art_url", cover_url)]

/-- Field extraction of the MusicBrainz block (`src/main.py` lines 40-51):
search, take `release-list` (default `[]`), and when it is truthy read the
first release's `id` (default `None`), `artist-credit[0]["artist"]["name"]`
(subscripts: raise when absent), `title` (default `None`), then fetch cover
art and read `images[0].get("image")` when `images` is truthy. `ok none`
means the release list was empty/falsy; `error` models any raised
exception. -/
def mbFields (search : String → Except Unit JVal)
    (cover : JVal → Except Unit JVal) (q : String) :
    Except Unit (Option (JVal × JVal × JVal × JVal)) := do
  let mb ← search q
  let release_list ← dictGetD mb "release-list" (.arr [])
  if truthy release_list then
    let r ← listGet release_list 0
    let mbid ← dictGetD r "id" .null
    let ac ← dictGet r "artist-credit"
    let ac0 ← listGet ac 0
    let art ← dictGet ac0 "artist"
    let artist ← dictGet art "name"
    let title ← dictGetD r "title" .null
    let art_json ← cover mbid
    let images ← dictGetD art_json "images" .null
    let cover_url ←
      if truthy images then do
        let ims ← dictGet art_json "images"
        let im0 ← listGet ims 0
        dictGetD im0 "image" .null
      else
        pure .null
    pure (some (artist, title, mbid, cover_url))
  else
    pure none

/-- The whole MusicBrainz `try` body (`src/main.py` lines 40-58): extract
the fields and, when a release was found, build the match dict. -/
def mbTry (search : String → Except Unit JVal)
    (cover : JVal → Except Unit JVal) (q : String) :
    Except Unit (Option JVal) :=
  (mbFields search cover q).map fun o =>
    o.map fun f => mkMbMatch f.1 f.2.1 f.2.2.1 f.2.2.2

/-- Field extraction of the Spotify block (`src/main.py` lines 64-71):
search, take `albums` (default `{}`) then `items` (default `[]`), and when
it is truthy read the first album's `artists[0]["name"]`, `name`,
`images[0]["url"]` when `images` is truthy else `None`, and `id` —
subscripts that raise when absent. -/
def spFields (spSearch : String → Except Unit JVal) (q : String) :
    Except Unit (Option (JVal × JVal × JVal × JVal)) := do
  let sp_res ← spSearch q
  let albums ← dictGetD sp_res "albums" (.obj [])
  let items ← dictGetD albums "items" (.arr [])
  if truthy items then
    let alb ← listGet items 0
    let artists ← dictGet alb "artists"
    let a0 ← listGet artists 0
    let artist ← dictGet a0 "name"
    let title ← dictGet alb "name"
    let images ← dictGet alb "images"
    let cover_url ←
      if truthy images then do
        let im0 ← listGet images 0
        dictGet im0 "url"
      else
        pure .null
    let spotify_id ← dictGet alb "id"
    pure (some (artist, title, spotify_id, cover_url))
  else
    pure none

/-- The whole Spotify `try` body (`src/main.py` lines 64-78). -/
def spTry (spSearch : String → Except Unit JVal) (q : String) :
    Except Unit (Option JVal) :=
  (spFields spSearch q).map fun o =>
    o.map fun f => mkSpMatch f.1 f.2.1 f.2.2.1 f.2.2.2

/-- `except Exception: pass` around a block that would have appended an
optional match: a raised exception leaves the entry's `matches` untouched,
i.e. contributes no match. -/
def runCaught : Except Unit (Option JVal) → Option JVal
  | .ok r => r
  | .error _ => none

/-- The MusicBrainz adapter's contribution for one query: the `try`/
`except` block at `src/main.py` lines 39-60. -/
def mbMatch (search : String → Except Unit JVal)
    (cover : JVal → Except Unit JVal) (q : String) : Option JVal :=
  runCaught (mbTry search cover q)

/-- The Spotify adapter's contribution for one query: the
`if spotify_client:` guard and `try`/`except` block at `src/main.py`
lines 62-80. With no configured client the block is skipped entirely. -/
def spMatch : Option (String → Except Unit JVal) → String → Option JVal
  | none, _ => none
  | some s, q => runCaught (spTry s q)

/-- The `matches` list a query ends up with: the MusicBrainz match (if
any) is appended first (`src/main.py` line 52), then the Spotify match
(if any, line 72). -/
def matchesOf (env : Env) (q : String) : List JVal :=
  (mbMatch env.mb_search env.cover_get q).toList ++ (spMatch env.sp q).toList

/-- One loop iteration of `lookup_metadata` (`src/main.py` lines 36-81):
the entry starts as `{"query_text": query, "matches": []}` and the
adapter blocks append their matches. -/
def entryOf (env : Env) (q : String) : JVal :=
  .obj [("query_text", .str q), ("matches", .arr (matchesOf env q))]

/-- `lookup_metadata(lines, spotify_client)` (`src/main.py` lines 30-82):
one entry per input line, appended in input order. -/
def lookup_metadata (env : Env) (lines : List String) : List JVal :=
  lines.map (entryOf env)

/-! ### The line normalization of `extract_text` (`src/main.py` line 28)

`extract_text` obtains raw text either from a hosted OCR call or from
`pytesseract` (external collaborators); the pipeline-relevant part is the
final comprehension
`[line.strip() for line in text.splitlines() if line.strip()]`,
which we embed over the acquired raw text. `str.splitlines` and
`str.strip` are modelled with Python's character classes. -/

/-- Python's `str.splitlines` line-boundary characters:
`\n`, `\v`, `\f`, `\r`, FS, GS, RS, NEL, LINE SEPARATOR, PARAGRAPH
SEPARATOR (`\r\n` is treated as a single boundary by the splitter). -/
def pyIsLineBreak (c : Char) : Bool :=
  c.val = 10 || c.val = 11 || c.val = 12 || c.val = 13 || c.val = 28 ||
  c.val = 29 || c.val = 30 || c.val = 133 || c.val = 0x2028 ||
  c.val = 0x2029

/-- Python's `str.isspace` / `str.strip` whitespace characters. -/
def pyIsSpace (c : Char) : Bool :=
  c.val = 32 || (9 ≤ c.val && c.val ≤ 13) || (28 ≤ c.val && c.val ≤ 31) ||
  c.val = 133 || c.val = 160 || c.val = 0x1680 ||
  (0x2000 ≤ c.val && c.val ≤ 0x200a) || c.val = 0x2028 ||
  c.val = 0x2029 || c.val = 0x202f || c.val = 0x205f || c.val = 0x3000

/-- Worker for `str.splitlines`: accumulates the current line (reversed);
no element is produced for a trailing line terminator. -/
def pySplitlinesAux : List Char → List Char → List String
  | [], acc => if acc.isEmpty then [] else [String.mk acc.reverse]
  | '\r' :: '\n' :: rest, acc =>
      String.mk acc.reverse :: pySplitlinesAux rest []
  | c :: rest, acc =>
      if pyIsLineBreak c then String.mk acc.reverse :: pySplitlinesAux rest []
      else pySplitlinesAux rest (c :: acc)

/-- Python `text.splitlines()`. -/
def pySplitlines (s : String) : List String :=
  pySplitlinesAux s.data []

/-- Python `line.strip()`: drop leading and trailing whitespace. -/
def pyStrip (s : String) : String :=
  String.mk (((s.data.dropWhile pyIsSpace).reverse.dropWhile pyIsSpace).reverse)

/-- The normalization `extract_text` applies to the raw OCR text
(`src/main.py` line 28): strip each line, keep the non-empty results in
order. -/
def extract_text (text : String) : List String :=
  (pySplitlines text).filterMap fun line =>
    let t := pyStrip line
    if t.isEmpty then none else some t

/-! ### Helper lemmas -/

/-- `Except.map` hits `ok b` exactly when the computation succeeded with a
preimage of `b`. -/
theorem exceptMap_ok_iff {α β : Type} (f : α → β) (e : Except Unit α)
    (b : β) : e.map f = .ok b ↔ ∃ a, e = .ok a ∧ f a = b := by
  cases e <;> simp [Except.map]

/-- `runCaught` yields a match only from a successful block that found
one. -/
theorem runCaught_eq_some {e : Except Unit (Option JVal)} {v : JVal}
    (h : runCaught e = some v) : e = .ok (some v) := by
  cases e with
  | error u => simp [runCaught] at h
  | ok o => cases o <;> simp_all [runCaught]

/-- A raised exception inside the block yields no match. -/
theorem runCaught_error {e : Except Unit (Option JVal)}
    (h : e = .error ()) : runCaught e = none := by
  rw [h]; rfl

/-- Every match the MusicBrainz block produces is the full five-key dict
literal. -/
theorem mbMatch_shape {search : String → Except Unit JVal}
    {cover : JVal → Except Unit JVal} {q : String} {v : JVal}
    (h : mbMatch search cover q = some v) :
    ∃ f : JVal × JVal × JVal × JVal,
      v = mkMbMatch f.1 f.2.1 f.2.2.1 f.2.2.2 := by
  have h1 : mbTry search cover q = .ok (some v) := runCaught_eq_some h
  rw [mbTry, exceptMap_ok_iff] at h1
  obtain ⟨o, _, hmap⟩ := h1
  cases o with
  | none => exact Option.noConfusion hmap
  | some f =>
    refine ⟨f, ?_⟩
    injection hmap with h2
    exact h2.symm

/-- Every match the Spotify block produces is the full five-key dict
literal. -/
theorem spMatch_shape {sp : Option (String → Except Unit JVal)}
    {q : String} {v : JVal} (h : spMatch sp q = some v) :
    ∃ f : JVal × JVal × JVal × JVal,
      v = mkSpMatch f.1 f.2.1 f.2.2.1 f.2.2.2 := by
  cases sp with
  | none => simp [spMatch] at h
  | some s =>
    have h1 : spTry s q = .ok (some v) := runCaught_eq_some h
    rw [spTry, exceptMap_ok_iff] at h1
    obtain ⟨o, _, hmap⟩ := h1
    cases o with
    | none => exact Option.noConfusion hmap
    | some f =>
      refine ⟨f, ?_⟩
      injection hmap with h2
      exact h2.symm

/-- The `source` key of a MusicBrainz match dict. -/
theorem mkMbMatch_source (a t m c : JVal) :
    dictGet (mkMbMatch a t m c) "source" = .ok (.str "MusicBrainz") := rfl

/-- The `source` key of a Spotify match dict. -/
theorem mkSpMatch_source (a t s c : JVal) :
    dictGet (mkSpMatch a t s c) "source" = .ok (.str "Spotify") := rfl

/-- The four possible `matches` lists of an entry: nothing, one
MusicBrainz match, one Spotify match, or a MusicBrainz match followed by
a Spotify match. -/
theorem matchesOf_cases (env : Env) (q : String) :
    matchesOf env q = [] ∨
    (∃ f : JVal × JVal × JVal × JVal,
      matchesOf env q = [mkMbMatch f.1 f.2.1 f.2.2.1 f.2.2.2]) ∨
    (∃ g : JVal × JVal × JVal × JVal,
      matchesOf env q = [mkSpMatch g.1 g.2.1 g.2.2.1 g.2.2.2]) ∨
    (∃ f g : JVal × JVal × JVal × JVal,
      matchesOf env q = [mkMbMatch f.1 f.2.1 f.2.2.1 f.2.2.2,
                         mkSpMatch g.1 g.2.1 g.2.2.1 g.2.2.2]) := by
  unfold matchesOf
  cases hmb : mbMatch env.mb_search env.cover_get q with
  | none =>
    cases hsp : spMatch env.sp q with
    | none => left; rfl
    | some v =>
      obtain ⟨g, rfl⟩ := spMatch_shape hsp
      right; right; left; exact ⟨g, rfl⟩
  | some v =>
    obtain ⟨f, rfl⟩ := mbMatch_shape hmb
    cases hsp : spMatch env.sp q with
    | none => right; left; exact ⟨f, rfl⟩
    | some w =>
      obtain ⟨g, rfl⟩ := spMatch_shape hsp
      right; right; right; exact ⟨f, g, rfl⟩

/-! ### Concrete environments used as witnesses and counterexamples -/

/-- A MusicBrainz response with a complete first release. -/
def mbRespFull : JVal :=
  .obj [("release-list", .arr [.obj [
    ("id", .str "MB1"),
    ("artist-credit", .arr [.obj [("artist", .obj [("name", .str "The Beatles")])]]),
    ("title", .str "Abbey Road")]])]

/-- A cover-art-archive response with one image. -/
def coverResp : JVal :=
  .obj [("images", .arr [.obj [("image", .str "http://cover/1.jpg")]])]

/-- A Spotify response with a complete first album. -/
def spRespFull : JVal :=
  .obj [("albums", .obj [("items", .arr [.obj [
    ("artists", .arr [.obj [("name", .str "The Beatles")]]),
    ("name", .str "Abbey Road"),
    ("images", .arr [.obj [("url", .str "http://sp/1.jpg")]]),
    ("id", .str "SP1")]])])]

/-- Both providers answer fully on every query. -/
def envFull : Env :=
  ⟨fun _ => .ok mbRespFull, fun _ => .ok coverResp,
   some fun _ => .ok spRespFull⟩

/-- A second, separately written copy of `envFull` (pointwise equal
response functions). -/
def envFull2 : Env :=
  ⟨fun _q => .ok mbRespFull, fun _v => .ok coverResp,
   some fun _q => .ok spRespFull⟩

/-- Every remote call raises. -/
def envErr : Env :=
  ⟨fun _ => .error (), fun _ => .error (), some fun _ => .error ()⟩

/-- The MusicBrainz search raises on every query while the configured
Spotify client answers fully. -/
def envMBErrSpOk : Env :=
  ⟨fun _ => .error (), fun _ => .ok coverResp, some fun _ => .ok spRespFull⟩

/-- MusicBrainz answers fully; no Spotify client is configured. -/
def envMBOnly : Env :=
  ⟨fun _ => .ok mbRespFull, fun _ => .ok coverResp, none⟩

/-- A MusicBrainz response whose first release omits the `artist-credit`
field (the provider found a release but supplied no artist). -/
def mbRespNoArtist : JVal :=
  .obj [("release-list", .arr [.obj [("id", .str "MB1"),
                                     ("title", .str "Abbey Road")]])]

/-- A MusicBrainz response whose first release carries only an artist
credit: `id` and `title` are omitted. -/
def mbRespNoTitle : JVal :=
  .obj [("release-list", .arr [.obj [
    ("artist-credit", .arr [.obj [("artist", .obj [("name", .str "The Beatles")])]])]])]

/-- The two `source` tags are distinct. -/
theorem mb_ne_sp :
    (Except.ok (JVal.str "MusicBrainz") : Except Unit JVal) ≠
      .ok (.str "Spotify") := by
  intro h
  injection h with h1
  injection h1 with h2
  exact absurd h2 (by decide)

/-! ### Claim theorems -/

/-- C1: for every input list of query strings of length N,
`lookup_metadata` returns a result list of length exactly N, in the same
order, with each entry's `query_text` equal to the corresponding input
query; a query with zero adapter successes still produces an entry with an
empty `matches` list and is never dropped. -/
theorem C1_result_set_lossless (env : Env) (lines : List String) :
    (lookup_metadata env lines).length = lines.length ∧
    (∀ i : Nat, (lookup_metadata env lines)[i]? = (lines[i]?).map (entryOf env)) ∧
    (∀ i : Nat, ∀ q : String, lines[i]? = some q →
      (lookup_metadata env lines)[i]? =
        some (.obj [("query_text", .str q), ("matches", .arr (matchesOf env q))])) ∧
    (∀ q : String, mbMatch env.mb_search env.cover_get q = none →
      spMatch env.sp q = none →
      entryOf env q = .obj [("query_text", .str q), ("matches", .arr [])]) := by
  refine ⟨List.length_map _ _, ?_, ?_, ?_⟩
  · intro i
    exact List.getElem?_map _ _ _
  · intro i q hq
    rw [lookup_metadata, List.getElem?_map, hq]
    rfl
  · intro q h1 h2
    unfold entryOf matchesOf
    rw [h1, h2]
    rfl

/-- C2: for every query and every provider block, independently, any
exception raised during the remote search call, the secondary cover-art
enrichment call, or response parsing (an `error` outcome of the block
`mbTry` / `spTry`) is caught inside that provider's block and yields no
match for that (query, provider) pair, leaving the entry with exactly the
other provider's matches; and `lookup_metadata` always produces one entry
per query, so no such exception reaches its caller. -/
theorem C2_exceptions_confined (env : Env) (q : String) :
    (mbTry env.mb_search env.cover_get q = .error () →
      mbMatch env.mb_search env.cover_get q = none ∧
      entryOf env q = .obj [("query_text", .str q),
        ("matches", .arr (spMatch env.sp q).toList)]) ∧
    (∀ s, env.sp = some s → spTry s q = .error () →
      spMatch env.sp q = none ∧
      entryOf env q = .obj [("query_text", .str q),
        ("matches",
         .arr (mbMatch env.mb_search env.cover_get q).toList)]) ∧
    (∀ lines : List String,
      (lookup_metadata env lines).length = lines.length ∧
      ∀ i : Nat,
        (lookup_metadata env lines)[i]? = (lines[i]?).map (entryOf env)) := by
  refine ⟨?_, ?_, fun lines =>
    ⟨List.length_map _ _, fun i => List.getElem?_map _ _ _⟩⟩
  · intro hmb
    have h1 : mbMatch env.mb_search env.cover_get q = none := by
      rw [mbMatch, hmb]
      rfl
    refine ⟨h1, ?_⟩
    unfold entryOf matchesOf
    rw [h1]
    rfl
  · intro s hs hsp
    have h2 : spMatch env.sp q = none := by
      rw [hs]
      show runCaught (spTry s q) = none
      rw [hsp]
      rfl
    refine ⟨h2, ?_⟩
    unfold entryOf matchesOf
    rw [h2]
    simp

/-- Witness for C2: with MusicBrainz raising and a configured Spotify
client answering, the MusicBrainz exception is confined to its own
(query, provider) pair — the entry still carries the intact Spotify
match. -/
theorem C2_exceptions_confined_witness :
    entryOf envMBErrSpOk "Abbey Road" =
      .obj [("query_text", .str "Abbey Road"),
            ("matches",
             .arr [mkSpMatch (.str "The Beatles") (.str "Abbey Road")
               (.str "SP1") (.str "http://sp/1.jpg")])] := by
  have h := (C2_exceptions_confined envMBErrSpOk "Abbey Road").1 rfl
  rw [h.2]
  rfl

/-- C3: every entry's `matches` list has at most one match per distinct
`source`, its length is at most the number of registered adapters (two),
and a MusicBrainz (database-source) match always precedes a Spotify
(catalog-source) match, mirroring adapter registration order. -/
theorem C3_at_most_one_match_per_source (env : Env) (q : String) :
    ∃ ms : List JVal,
      entryOf env q = .obj [("query_text", .str q), ("matches", .arr ms)] ∧
      ms.length ≤ 2 ∧
      ms.Pairwise (fun a b => dictGet a "source" ≠ dictGet b "source") ∧
      (∀ i j : Nat, ∀ hi : i < ms.length, ∀ hj : j < ms.length,
        dictGet (ms.get ⟨i, hi⟩) "source" = .ok (.str "MusicBrainz") →
        dictGet (ms.get ⟨j, hj⟩) "source" = .ok (.str "Spotify") →
        i < j) := by
  refine ⟨matchesOf env q, rfl, ?_⟩
  rcases matchesOf_cases env q with h | ⟨f, h⟩ | ⟨g, h⟩ | ⟨f, g, h⟩ <;>
    rw [h]
  · exact ⟨by simp, by simp, fun i j hi hj _ _ => absurd hi (by simp)⟩
  · refine ⟨by simp, by simp, fun i j hi hj h1 h2 => ?_⟩
    simp only [List.length_singleton, Nat.lt_one_iff] at hi hj
    subst hi; subst hj
    rw [List.get, mkMbMatch_source] at h2
    exact absurd h2 mb_ne_sp
  · refine ⟨by simp, by simp, fun i j hi hj h1 h2 => ?_⟩
    simp only [List.length_singleton, Nat.lt_one_iff] at hi hj
    subst hi; subst hj
    rw [List.get, mkSpMatch_source] at h1
    exact absurd h1.symm mb_ne_sp
  · refine ⟨by simp, ?_, fun i j hi hj h1 h2 => ?_⟩
    · refine List.Pairwise.cons ?_ (List.pairwise_singleton _ _)
      intro b hb
      rw [List.mem_singleton] at hb
      subst hb
      rw [mkMbMatch_source, mkSpMatch_source]
      exact mb_ne_sp
    · simp only [List.length_cons, List.length_nil] at hi hj
      rcases (by omega : i = 0 ∨ i = 1) with rfl | rfl <;>
        rcases (by omega : j = 0 ∨ j = 1) with rfl | rfl
      · have h2a : dictGet (mkMbMatch f.1 f.2.1 f.2.2.1 f.2.2.2) "source" =
            .ok (.str "Spotify") := h2
        rw [mkMbMatch_source] at h2a
        exact absurd h2a mb_ne_sp
      · exact Nat.zero_lt_one
      · have h1a : dictGet (mkSpMatch g.1 g.2.1 g.2.2.1 g.2.2.2) "source" =
            .ok (.str "MusicBrainz") := h1
        rw [mkSpMatch_source] at h1a
        exact absurd h1a.symm mb_ne_sp
      · have h1a : dictGet (mkSpMatch g.1 g.2.1 g.2.2.1 g.2.2.2) "source" =
            .ok (.str "MusicBrainz") := h1
        rw [mkSpMatch_source] at h1a
        exact absurd h1a.symm mb_ne_sp

/-- C5: if one adapter raises on every query, `lookup_metadata` still
returns a full-length result list in which the other adapter's matches
are present and unchanged for every query. -/
theorem C5_adapter_isolation (env : Env) (lines : List String) :
    (lookup_metadata ⟨fun _ => .error (), env.cover_get, env.sp⟩
      lines).length = lines.length ∧
    (lookup_metadata ⟨env.mb_search, env.cover_get,
      some fun _ => .error ()⟩ lines).length = lines.length ∧
    (∀ q, entryOf ⟨fun _ => .error (), env.cover_get, env.sp⟩ q =
      .obj [("query_text", .str q),
            ("matches", .arr (spMatch env.sp q).toList)]) ∧
    (∀ q, entryOf ⟨env.mb_search, env.cover_get,
        some fun _ => .error ()⟩ q =
      .obj [("query_text", .str q),
            ("matches",
             .arr (mbMatch env.mb_search env.cover_get q).toList)]) := by
  refine ⟨List.length_map _ _, List.length_map _ _, fun q => rfl, fun q => ?_⟩
  have hsp : spMatch (some fun _ => .error ()) q = none := rfl
  unfold entryOf matchesOf
  rw [hsp]
  simp

/-- C4: the line normalization of `extract_text` splits the raw text on
line boundaries, trims each line, drops lines that are empty after
trimming, and preserves the order of the survivors; on
`"  A \n\nB\n  "` it yields `["A", "B"]`, and on empty input it yields
the empty sequence. -/
theorem C4_normalizer (text : String) :
    extract_text text =
      ((pySplitlines text).map pyStrip).filter (fun t => !t.isEmpty) ∧
    extract_text "  A \n\nB\n  " = ["A", "B"] ∧
    extract_text "" = [] := by
  refine ⟨?_, rfl, rfl⟩
  unfold extract_text
  induction pySplitlines text with
  | nil => rfl
  | cons a l ih =>
    cases hs : (pyStrip a).isEmpty <;>
      simp [List.filterMap_cons, List.filter_cons, hs, ih]

/-- C6 is refuted: here the provider returns a result (a truthy, non-empty
`release-list`) whose release omits the optional `artist` field, yet the
adapter produces no `ProviderMatch` at all — the subscript chain
`r["artist-credit"][0]["artist"]["name"]` raises and the `except` swallows
the whole match. -/
theorem C6_counterexample :
    truthy (.arr [.obj [("id", .str "MB1"),
                        ("title", .str "Abbey Road")]]) = true ∧
    dictGetD mbRespNoArtist "release-list" (.arr []) =
      .ok (.arr [.obj [("id", .str "MB1"),
                       ("title", .str "Abbey Road")]]) ∧
    mbMatch (fun _ => .ok mbRespNoArtist) (fun _ => .ok coverResp)
      "Abbey Road" = none :=
  ⟨rfl, rfl, rfl⟩

/-- C6 (amended): a response omitting a field read with `.get`
(MusicBrainz `id`, `title`, cover `image`) still produces a match carrying
`source` plus the supplied fields, with `None` for the omitted ones; a
response omitting a field read by subscript (such as `artist`) produces no
match for that (query, provider) pair; a produced match is never a
partially-constructed record — it always carries all five keys. -/
theorem C6_optional_fields_amended (env : Env) (q : String) :
    (∀ v, mbMatch env.mb_search env.cover_get q = some v →
      ∃ f : JVal × JVal × JVal × JVal,
        v = mkMbMatch f.1 f.2.1 f.2.2.1 f.2.2.2) ∧
    (∀ v, spMatch env.sp q = some v →
      ∃ g : JVal × JVal × JVal × JVal,
        v = mkSpMatch g.1 g.2.1 g.2.2.1 g.2.2.2) ∧
    mbMatch (fun _ => .ok mbRespNoTitle) (fun _ => .ok (.obj [])) q =
      some (mkMbMatch (.str "The Beatles") .null .null .null) ∧
    mbMatch (fun _ => .ok mbRespNoArtist) (fun _ => .ok coverResp) q =
      none :=
  ⟨fun _ h => mbMatch_shape h, fun _ h => spMatch_shape h, rfl, rfl⟩

/-- C7: when no Spotify client is configured, the Spotify block is skipped
for the whole run: every entry's matches are exactly the MusicBrainz
adapter's, and no entry carries a match whose `source` is `"Spotify"`. -/
theorem C7_spotify_omitted_when_unconfigured (env : Env)
    (h : env.sp = none) (lines : List String) :
    lookup_metadata env lines = lines.map (fun q =>
      .obj [("query_text", .str q),
            ("matches",
             .arr (mbMatch env.mb_search env.cover_get q).toList)]) ∧
    (∀ q m, m ∈ matchesOf env q →
      dictGet m "source" = .ok (.str "MusicBrainz") ∧
      dictGet m "source" ≠ .ok (.str "Spotify")) := by
  have hm : ∀ q, matchesOf env q =
      (mbMatch env.mb_search env.cover_get q).toList := by
    intro q
    unfold matchesOf
    rw [h]
    simp [spMatch]
  constructor
  · unfold lookup_metadata
    refine List.map_congr_left fun q _ => ?_
    unfold entryOf
    rw [hm q]
  · intro q m hmem
    rw [hm q] at hmem
    cases ho : mbMatch env.mb_search env.cover_get q with
    | none => rw [ho] at hmem; simp at hmem
    | some v =>
      rw [ho] at hmem
      simp only [Option.toList_some, List.mem_singleton] at hmem
      subst hmem
      obtain ⟨f, rfl⟩ := mbMatch_shape ho
      refine ⟨mkMbMatch_source _ _ _ _, fun hcon => ?_⟩
      rw [mkMbMatch_source] at hcon
      exact mb_ne_sp hcon

/-- Witness for C7: with MusicBrainz configured and no Spotify client,
the run's entries carry only MusicBrainz matches. -/
theorem C7_spotify_omitted_witness :
    lookup_metadata envMBOnly ["Abbey Road"] = ["Abbey Road"].map (fun q =>
      .obj [("query_text", .str q),
            ("matches",
             .arr (mbMatch envMBOnly.mb_search envMBOnly.cover_get
               q).toList)]) :=
  (C7_spotify_omitted_when_unconfigured envMBOnly rfl ["Abbey Road"]).1

/-- C9: with fixed adapter responses (two environments whose response
functions agree pointwise), two runs of `lookup_metadata` on the same
query list return identical result lists, equal in content and order. -/
theorem C9_resolution_deterministic (e1 e2 : Env) (lines : List String)
    (hmb : ∀ q, e1.mb_search q = e2.mb_search q)
    (hcov : ∀ v, e1.cover_get v = e2.cover_get v)
    (hsp : (e1.sp = none ∧ e2.sp = none) ∨
      (∃ s1 s2, e1.sp = some s1 ∧ e2.sp = some s2 ∧ ∀ q, s1 q = s2 q)) :
    lookup_metadata e1 lines = lookup_metadata e2 lines := by
  obtain ⟨m1, c1, s1⟩ := e1
  obtain ⟨m2, c2, s2⟩ := e2
  simp only at hmb hcov hsp
  have hm : m1 = m2 := funext hmb
  have hc : c1 = c2 := funext hcov
  subst hm
  subst hc
  rcases hsp with ⟨h1, h2⟩ | ⟨t1, t2, h1, h2, hq⟩
  · subst h1
    subst h2
    rfl
  · subst h1
    subst h2
    have ht : t1 = t2 := funext hq
    subst ht
    rfl

/-- Witness for C9: two separately written environments with pointwise
equal responses produce the same result list. -/
theorem C9_resolution_deterministic_witness :
    lookup_metadata envFull ["Abbey Road", "x"] =
      lookup_metadata envFull2 ["Abbey Road", "x"] :=
  C9_resolution_deterministic envFull envFull2 ["Abbey Road", "x"]
    (fun _ => rfl) (fun _ => rfl)
    (Or.inr ⟨_, _, rfl, rfl, fun _ => rfl⟩)

/-- C10: every match dict `lookup_metadata` produces carries the keys
`source`, `artist`, `title`, `cover_art_url` (always present as a key,
possibly with value `None`), and its source-tagged identifier key:
`mbid` for MusicBrainz, `spotify_id` for Spotify. -/
theorem C10_match_keys_complete (env : Env) (q : String) (m : JVal)
    (h : m ∈ matchesOf env q) :
    (∃ a, dictGet m "artist" = .ok a) ∧
    (∃ t, dictGet m "title" = .ok t) ∧
    (∃ c, dictGet m "cover_art_url" = .ok c) ∧
    ((dictGet m "source" = .ok (.str "MusicBrainz") ∧
      ∃ i, dictGet m "mbid" = .ok i) ∨
     (dictGet m "source" = .ok (.str "Spotify") ∧
      ∃ i, dictGet m "spotify_id" = .ok i)) := by
  unfold matchesOf at h
  rw [List.mem_append] at h
  cases h with
  | inl h =>
    cases ho : mbMatch env.mb_search env.cover_get q with
    | none => rw [ho] at h; simp at h
    | some v =>
      rw [ho] at h
      simp only [Option.toList_some, List.mem_singleton] at h
      subst h
      obtain ⟨f, rfl⟩ := mbMatch_shape ho
      exact ⟨⟨f.1, rfl⟩, ⟨f.2.1, rfl⟩, ⟨f.2.2.2, rfl⟩,
        Or.inl ⟨rfl, f.2.2.1, rfl⟩⟩
  | inr h =>
    cases ho : spMatch env.sp q with
    | none => rw [ho] at h; simp at h
    | some v =>
      rw [ho] at h
      simp only [Option.toList_some, List.mem_singleton] at h
      subst h
      obtain ⟨g, rfl⟩ := spMatch_shape ho
      exact ⟨⟨g.1, rfl⟩, ⟨g.2.1, rfl⟩, ⟨g.2.2.2, rfl⟩,
        Or.inr ⟨rfl, g.2.2.1, rfl⟩⟩

/-- Witness for C10: the MusicBrainz match of the fully answering
environment carries all five keys. -/
theorem C10_match_keys_witness :
    (∃ a, dictGet (mkMbMatch (.str "The Beatles") (.str "Abbey Road")
      (.str "MB1") (.str "http://cover/1.jpg")) "artist" = .ok a) ∧
    (∃ t, dictGet (mkMbMatch (.str "The Beatles") (.str "Abbey Road")
      (.str "MB1") (.str "http://cover/1.jpg")) "title" = .ok t) ∧
    (∃ c, dictGet (mkMbMatch (.str "The Beatles") (.str "Abbey Road")
      (.str "MB1") (.str "http://cover/1.jpg")) "cover_art_url" = .ok c) ∧
    ((dictGet (mkMbMatch (.str "The Beatles") (.str "Abbey Road")
        (.str "MB1") (.str "http://cover/1.jpg")) "source" =
          .ok (.str "MusicBrainz") ∧
      ∃ i, dictGet (mkMbMatch (.str "The Beatles") (.str "Abbey Road")
        (.str "MB1") (.str "http://cover/1.jpg")) "mbid" = .ok i) ∨
     (dictGet (mkMbMatch (.str "The Beatles") (.str "Abbey Road")
        (.str "MB1") (.str "http://cover/1.jpg")) "source" =
          .ok (.str "Spotify") ∧
      ∃ i, dictGet (mkMbMatch (.str "The Beatles") (.str "Abbey Road")
        (.str "MB1") (.str "http://cover/1.jpg")) "spotify_id" =
          .ok i)) :=
  C10_match_keys_complete envFull "Abbey Road" _ (by
    have e : matchesOf envFull "Abbey Road" =
        [mkMbMatch (.str "The Beatles") (.str "Abbey Road") (.str "MB1")
           (.str "http://cover/1.jpg"),
         mkSpMatch (.str "The Beatles") (.str "Abbey Road") (.str "SP1")
           (.str "http://sp/1.jpg")] := rfl
    rw [e]
    exact List.mem_cons_self _ _)

/-! ### JSON encode/decode (C8)

`main` serializes the result list with `json.dumps(results, indent=2)`
and the spec requires the output schema to round-trip through JSON
encode/decode without loss. We model the JSON text encoding of a `JVal`
(`dumps`: standard JSON with `"` , `\` and control characters escaped;
the whitespace layout of `indent=2` and `ensure_ascii`'s `\uXXXX`
escaping of non-ASCII are alternative spellings of the same JSON value
and do not affect the decoded result, so the model prints compactly and
keeps non-ASCII raw) and a recursive-descent decoder (`loads`: values,
the standard string escapes, integer numbers — the only numbers `dumps`
emits — with interleaved whitespace skipping). -/

/-- Left brace character (0x7b). -/
def lbrace : Char := Char.ofNat 123

/-- Right brace character (0x7d). -/
def rbrace : Char := Char.ofNat 125

/-- The hexadecimal digit characters (lowercase, as `json.dumps` emits
them). -/
def hexDigit : Nat → Char
  | 0 => '0' | 1 => '1' | 2 => '2' | 3 => '3' | 4 => '4'
  | 5 => '5' | 6 => '6' | 7 => '7' | 8 => '8' | 9 => '9'
  | 10 => 'a' | 11 => 'b' | 12 => 'c' | 13 => 'd' | 14 => 'e'
  | _ => 'f'

/-- Decimal digit list of a natural number, most significant first. -/
def natChars (n : Nat) : List Char :=
  if n = 0 then ['0'] else ((Nat.digits 10 n).reverse.map hexDigit)

/-- JSON text of an integer. -/
def intChars : Int → List Char
  | .ofNat n => natChars n
  | .negSucc n => '-' :: natChars (n + 1)

/-- JSON escaping of one character inside a string literal: `"` and `\`
get a backslash escape, control characters a `\u00XX` escape, everything
else is emitted raw. -/
def escapeChar (c : Char) : List Char :=
  if c = '"' then ['\\', '"']
  else if c = '\\' then ['\\', '\\']
  else if c.toNat < 32 then
    ['\\', 'u', '0', '0', hexDigit (c.toNat / 16), hexDigit (c.toNat % 16)]
  else [c]

/-- The escaped characters of a string body followed by the closing
quote. -/
def encodeChars : List Char → List Char
  | [] => ['"']
  | c :: cs => escapeChar c ++ encodeChars cs

mutual

/-- JSON text of a value (compact layout). -/
def printVal : JVal → List Char
  | .null => 'n' :: ['u', 'l', 'l']
  | .bool true => 't' :: ['r', 'u', 'e']
  | .bool false => 'f' :: ['a', 'l', 's', 'e']
  | .num n => intChars n
  | .str s => '"' :: encodeChars s.data
  | .arr [] => ['[', ']']
  | .arr (x :: xs) => '[' :: (printElems x xs ++ [']'])
  | .obj [] => [lbrace, rbrace]
  | .obj ((k, v) :: kvs) => lbrace :: (printMembers k v kvs ++ [rbrace])
termination_by v => sizeOf v

/-- Comma-separated JSON texts of the elements of a non-empty array. -/
def printElems (x : JVal) : List JVal → List Char
  | [] => printVal x
  | y :: ys => printVal x ++ ',' :: printElems y ys
termination_by xs => sizeOf x + sizeOf xs

/-- Comma-separated `"key":value` texts of the members of a non-empty
object. -/
def printMembers (k : String) (v : JVal) : List (String × JVal) → List Char
  | [] => ('"' :: encodeChars k.data) ++ ':' :: printVal v
  | (k2, v2) :: kvs =>
      (('"' :: encodeChars k.data) ++ ':' :: printVal v) ++
        ',' :: printMembers k2 v2 kvs
termination_by kvs => sizeOf v + sizeOf kvs

end

/-- The model of `json.dumps(results)`. -/
def dumps (v : JVal) : String := String.mk (printVal v)

/-- JSON whitespace. -/
def isWs (c : Char) : Bool :=
  c = ' ' || c = Char.ofNat 9 || c = Char.ofNat 10 || c = Char.ofNat 13

/-- Drop leading JSON whitespace. -/
def skipWs : List Char → List Char
  | [] => []
  | c :: cs => if isWs c then skipWs cs else c :: cs

/-- Decimal digit character test. -/
def isDigitC (c : Char) : Bool := 48 ≤ c.toNat && c.toNat ≤ 57

/-- Value of a hexadecimal digit character. -/
def parseHex (c : Char) : Option Nat :=
  if 48 ≤ c.toNat ∧ c.toNat ≤ 57 then some (c.toNat - 48)
  else if 97 ≤ c.toNat ∧ c.toNat ≤ 102 then some (c.toNat - 87)
  else if 65 ≤ c.toNat ∧ c.toNat ≤ 70 then some (c.toNat - 55)
  else none

/-- Longest prefix of decimal digits, as digit values, with the rest. -/
def takeDigits : List Char → List Nat × List Char
  | [] => ([], [])
  | c :: cs =>
    if isDigitC c then
      let p := takeDigits cs
      ((c.toNat - 48) :: p.1, p.2)
    else ([], c :: cs)

/-- Match an expected literal character sequence and return the rest. -/
def expectTail : List Char → List Char → Option (List Char)
  | [], cs => some cs
  | p :: ps, c :: cs => if c = p then expectTail ps cs else none
  | _ :: _, [] => none

/-- Decode a JSON string body (after the opening quote) up to and
including the closing quote: the decoded characters and the rest. -/
def parseStringBody : List Char → Option (List Char × List Char)
  | [] => none
  | c :: cs =>
    if c = '"' then some ([], cs)
    else if c = '\\' then
      match cs with
      | [] => none
      | e :: cs2 =>
        if e = '"' then
          (parseStringBody cs2).map fun p => ('"' :: p.1, p.2)
        else if e = '\\' then
          (parseStringBody cs2).map fun p => ('\\' :: p.1, p.2)
        else if e = '/' then
          (parseStringBody cs2).map fun p => ('/' :: p.1, p.2)
        else if e = 'b' then
          (parseStringBody cs2).map fun p => (Char.ofNat 8 :: p.1, p.2)
        else if e = 'f' then
          (parseStringBody cs2).map fun p => (Char.ofNat 12 :: p.1, p.2)
        else if e = 'n' then
          (parseStringBody cs2).map fun p => (Char.ofNat 10 :: p.1, p.2)
        else if e = 'r' then
          (parseStringBody cs2).map fun p => (Char.ofNat 13 :: p.1, p.2)
        else if e = 't' then
          (parseStringBody cs2).map fun p => (Char.ofNat 9 :: p.1, p.2)
        else if e = 'u' then
          match cs2 with
          | h1 :: h2 :: h3 :: h4 :: cs3 =>
            match parseHex h1, parseHex h2, parseHex h3, parseHex h4 with
            | some a, some b, some c3, some d =>
              (parseStringBody cs3).map fun p =>
                (Char.ofNat (((a * 16 + b) * 16 + c3) * 16 + d) :: p.1, p.2)
            | _, _, _, _ => none
          | _ => none
        else none
    else (parseStringBody cs).map fun p => (c :: p.1, p.2)

/-- Decode an integer JSON number (optional minus, decimal digits). -/
def parseNumber : List Char → Option (JVal × List Char)
  | [] => none
  | c :: cs =>
    if c = '-' then
      match takeDigits cs with
      | ([], _) => none
      | (d :: ds, rest) =>
        some (.num (-(Nat.ofDigits 10 ((d :: ds).reverse) : Nat)), rest)
    else
      match takeDigits (c :: cs) with
      | ([], _) => none
      | (d :: ds, rest) =>
        some (.num ((Nat.ofDigits 10 ((d :: ds).reverse) : Nat) : Int), rest)

mutual

/-- Decode one JSON value (fuel-indexed recursive descent). -/
def parseVal : Nat → List Char → Option (JVal × List Char)
  | 0, _ => none
  | fuel + 1, cs =>
    match skipWs cs with
    | [] => none
    | c :: cs1 =>
      if c = '"' then
        (parseStringBody cs1).map fun p => (.str (String.mk p.1), p.2)
      else if c = 't' then
        (expectTail ['r', 'u', 'e'] cs1).map fun r => (.bool true, r)
      else if c = 'f' then
        (expectTail ['a', 'l', 's', 'e'] cs1).map fun r => (.bool false, r)
      else if c = 'n' then
        (expectTail ['u', 'l', 'l'] cs1).map fun r => (.null, r)
      else if c = '[' then
        match skipWs cs1 with
        | [] => none
        | c2 :: cs2 =>
          if c2 = ']' then some (.arr [], cs2)
          else (parseElems fuel (c2 :: cs2)).map fun p => (.arr p.1, p.2)
      else if c = lbrace then
        match skipWs cs1 with
        | [] => none
        | c2 :: cs2 =>
          if c2 = rbrace then some (.obj [], cs2)
          else (parseMembers fuel (c2 :: cs2)).map fun p => (.obj p.1, p.2)
      else if c = '-' ∨ isDigitC c then parseNumber (c :: cs1)
      else none

/-- Decode the comma-separated elements of a non-empty array, consuming
the closing bracket. -/
def parseElems : Nat → List Char → Option (List JVal × List Char)
  | 0, _ => none
  | fuel + 1, cs =>
    match parseVal fuel cs with
    | none => none
    | some (v, r) =>
      match skipWs r with
      | [] => none
      | c :: r2 =>
        if c = ',' then
          (parseElems fuel r2).map fun p => (v :: p.1, p.2)
        else if c = ']' then some ([v], r2)
        else none

/-- Decode the comma-separated members of a non-empty object, consuming
the closing brace. -/
def parseMembers : Nat → List Char →
    Option (List (String × JVal) × List Char)
  | 0, _ => none
  | fuel + 1, cs =>
    match skipWs cs with
    | [] => none
    | c :: cs1 =>
      if c = '"' then
        match parseStringBody cs1 with
        | none => none
        | some (k, r1) =>
          match skipWs r1 with
          | [] => none
          | c2 :: r2 =>
            if c2 = ':' then
              match parseVal fuel r2 with
              | none => none
              | some (v, r3) =>
                match skipWs r3 with
                | [] => none
                | c3 :: r4 =>
                  if c3 = ',' then
                    (parseMembers fuel r4).map fun p =>
                      ((String.mk k, v) :: p.1, p.2)
                  else if c3 = rbrace then some ([(String.mk k, v)], r4)
                  else none
            else none
      else none

end

/-- The model of `json.loads`: decode one value and require only
whitespace after it. -/
def loads (s : String) : Option JVal :=
  match parseVal (s.data.length + 1) s.data with
  | some (v, rest) => if (skipWs rest).isEmpty then some v else none
  | none => none

mutual

/-- Fuel needed by `parseVal` to decode the printed form of a value. -/
def jsize : JVal → Nat
  | .null => 1
  | .bool _ => 1
  | .str _ => 1
  | .num _ => 1
  | .arr [] => 1
  | .arr (x :: xs) => 1 + jsizeE x xs
  | .obj [] => 1
  | .obj ((_, v) :: kvs) => 1 + jsizeM v kvs
termination_by v => sizeOf v

/-- Fuel needed by `parseElems` for a non-empty element list. -/
def jsizeE (x : JVal) : List JVal → Nat
  | [] => 1 + jsize x
  | y :: ys => 1 + jsize x + jsizeE y ys
termination_by ys => sizeOf x + sizeOf ys

/-- Fuel needed by `parseMembers` for a non-empty member list. -/
def jsizeM (v : JVal) : List (String × JVal) → Nat
  | [] => 1 + jsize v
  | (_, v2) :: kvs => 1 + jsize v + jsizeM v2 kvs
termination_by kvs => sizeOf v + sizeOf kvs

end

/-- The rest list does not begin with a decimal digit (so a decoded
number is not extended into it). -/
def headNotDigit : List Char → Prop
  | [] => True
  | c :: _ => isDigitC c = false

/-- Dropping whitespace before a non-whitespace head is the identity. -/
theorem skipWs_cons {c : Char} (cs : List Char) (h : isWs c = false) :
    skipWs (c :: cs) = c :: cs := by
  simp [skipWs, h]

/-- A literal sequence parses off the front of itself. -/
theorem expectTail_append (ps rest : List Char) :
    expectTail ps (ps ++ rest) = some rest := by
  induction ps with
  | nil => rfl
  | cons p ps ih => simp [expectTail, ih]

/-- `parseHex` inverts `hexDigit` on hex digit values. -/
theorem parseHex_hexDigit (d : Nat) (h : d < 16) :
    parseHex (hexDigit d) = some d := by
  interval_cases d <;> decide

/-- Digit characters printed for digit values are decimal digits. -/
theorem isDigitC_hexDigit (d : Nat) (h : d < 10) :
    isDigitC (hexDigit d) = true := by
  interval_cases d <;> decide

/-- Code of a printed decimal digit. -/
theorem toNat_hexDigit (d : Nat) (h : d < 10) :
    (hexDigit d).toNat = 48 + d := by
  interval_cases d <;> decide

/-- Decoding step: a closing quote ends the string body. -/
theorem psb_quote (rest : List Char) :
    parseStringBody ('"' :: rest) = some ([], rest) := by
  rw [parseStringBody.eq_def]
  rfl

/-- Decoding step: an unescaped ordinary character is kept. -/
theorem psb_plain {c : Char} (h1 : c ≠ '"') (h2 : c ≠ '\\')
    (cs : List Char) :
    parseStringBody (c :: cs) =
      (parseStringBody cs).map fun p => (c :: p.1, p.2) := by
  rw [parseStringBody.eq_def]
  show (if c = '"' then some ([], cs)
    else if c = '\\' then _ else
      (parseStringBody cs).map fun p : List Char × List Char =>
        (c :: p.1, p.2)) = _
  rw [if_neg h1, if_neg h2]

/-- Decoding step: an escaped quote. -/
theorem psb_esc_quote (cs : List Char) :
    parseStringBody ('\\' :: '"' :: cs) =
      (parseStringBody cs).map fun p => ('"' :: p.1, p.2) := by
  rw [parseStringBody.eq_def]
  rfl

/-- Decoding step: an escaped backslash. -/
theorem psb_esc_backslash (cs : List Char) :
    parseStringBody ('\\' :: '\\' :: cs) =
      (parseStringBody cs).map fun p => ('\\' :: p.1, p.2) := by
  rw [parseStringBody.eq_def]
  rfl

/-- Decoding step: a `\u` escape with four hex digits. -/
theorem psb_esc_u {a b c3 d : Nat} {h1 h2 h3 h4 : Char}
    (cs3 : List Char) (e1 : parseHex h1 = some a)
    (e2 : parseHex h2 = some b) (e3 : parseHex h3 = some c3)
    (e4 : parseHex h4 = some d) :
    parseStringBody ('\\' :: 'u' :: h1 :: h2 :: h3 :: h4 :: cs3) =
      (parseStringBody cs3).map fun p =>
        (Char.ofNat (((a * 16 + b) * 16 + c3) * 16 + d) :: p.1, p.2) := by
  rw [parseStringBody.eq_def]
  show (match parseHex h1, parseHex h2, parseHex h3, parseHex h4 with
    | some a, some b, some c3, some d =>
      (parseStringBody cs3).map fun p : List Char × List Char =>
        (Char.ofNat (((a * 16 + b) * 16 + c3) * 16 + d) :: p.1, p.2)
    | _, _, _, _ => none) = _
  rw [e1, e2, e3, e4]

/-- Decoding the escaped form of a string body recovers it exactly and
leaves the rest untouched. -/
theorem encodeChars_parse (cs rest : List Char) :
    parseStringBody (encodeChars cs ++ rest) = some (cs, rest) := by
  induction cs with
  | nil => exact psb_quote rest
  | cons c cs ih =>
    show parseStringBody ((escapeChar c ++ encodeChars cs) ++ rest) = _
    by_cases hq : c = '"'
    · subst hq
      rw [show (escapeChar '"' ++ encodeChars cs) ++ rest =
        '\\' :: '"' :: (encodeChars cs ++ rest) from rfl,
        psb_esc_quote, ih]
      rfl
    · by_cases hb : c = '\\'
      · subst hb
        rw [show (escapeChar '\\' ++ encodeChars cs) ++ rest =
          '\\' :: '\\' :: (encodeChars cs ++ rest) from rfl,
          psb_esc_backslash, ih]
        rfl
      · by_cases hc : c.toNat < 32
        · have he : (escapeChar c ++ encodeChars cs) ++ rest =
              '\\' :: 'u' :: '0' :: '0' :: hexDigit (c.toNat / 16) ::
                hexDigit (c.toNat % 16) :: (encodeChars cs ++ rest) := by
            simp [escapeChar, hq, hb, hc]
          rw [he, psb_esc_u (encodeChars cs ++ rest)
            (show parseHex '0' = some 0 from rfl)
            (show parseHex '0' = some 0 from rfl)
            (parseHex_hexDigit _ (by omega))
            (parseHex_hexDigit _ (by omega)), ih]
          have harith : ((0 * 16 + 0) * 16 + c.toNat / 16) * 16 +
              c.toNat % 16 = c.toNat := by omega
          simp only [harith, Char.ofNat_toNat]
          rfl
        · have he : (escapeChar c ++ encodeChars cs) ++ rest =
              c :: (encodeChars cs ++ rest) := by
            simp [escapeChar, hq, hb, hc]
          rw [he, psb_plain hq hb, ih]
          rfl

/-- A decimal digit character is not whitespace, not a closing bracket,
not a minus sign, and not any value-starting keyword or punctuation
character. -/
theorem isDigitC_facts {c : Char} (h : isDigitC c = true) :
    isWs c = false ∧ c ≠ ']' ∧ c ≠ '-' ∧ c ≠ '"' ∧ c ≠ 't' ∧ c ≠ 'f' ∧
      c ≠ 'n' ∧ c ≠ '[' ∧ c ≠ lbrace := by
  have hv : 48 ≤ c.toNat ∧ c.toNat ≤ 57 := by
    simpa [isDigitC] using h
  refine ⟨?_, ?_, ?_, ?_, ?_, ?_, ?_, ?_, ?_⟩ <;>
    first
    | (intro he; subst he; revert hv; decide)
    | (revert hv
       simp only [isWs, Char.toNat]
       intro hv
       by_contra hws
       simp only [Bool.not_eq_false, Bool.or_eq_true, decide_eq_true_eq]
         at hws
       rcases hws with ((h1 | h1) | h1) | h1 <;> subst h1 <;> revert hv <;>
         decide)

/-- The printed digit list of a natural number: non-empty decimal digits
whose value is the number. -/
theorem natChars_spec (n : Nat) :
    ∃ l : List Nat, natChars n = l.map hexDigit ∧ l ≠ [] ∧
      (∀ d ∈ l, d < 10) ∧ Nat.ofDigits 10 l.reverse = n := by
  by_cases h : n = 0
  · subst h
    exact ⟨[0], rfl, by simp, by simp, by simp [Nat.ofDigits]⟩
  · refine ⟨(Nat.digits 10 n).reverse, by simp [natChars, h], ?_, ?_, ?_⟩
    · have hd : Nat.digits 10 n ≠ [] := Nat.digits_ne_nil_iff_ne_zero.mpr h
      simp [hd]
    · intro d hd
      rw [List.mem_reverse] at hd
      exact Nat.digits_lt_base (by norm_num) hd
    · simp [Nat.ofDigits_digits]

/-- `takeDigits` consumes exactly a printed digit run when the rest does
not begin with a digit. -/
theorem takeDigits_map (l : List Nat) (hl : ∀ d ∈ l, d < 10)
    (rest : List Char) (hrest : headNotDigit rest) :
    takeDigits (l.map hexDigit ++ rest) = (l, rest) := by
  induction l with
  | nil =>
    cases rest with
    | nil => rfl
    | cons c r =>
      have hc : isDigitC c = false := hrest
      simp [takeDigits, hc]
  | cons d l ih =>
    have hd : d < 10 := hl d (List.mem_cons_self _ _)
    have h1 : isDigitC (hexDigit d) = true := isDigitC_hexDigit d hd
    have h2 : (hexDigit d).toNat = 48 + d := toNat_hexDigit d hd
    show takeDigits (hexDigit d :: (l.map hexDigit ++ rest)) = _
    simp [takeDigits, h1, h2,
      ih (fun x hx => hl x (List.mem_cons_of_mem _ hx))]

/-- Decoding the printed form of an integer recovers it, when the rest
does not begin with a digit. -/
theorem parseNumber_intChars (n : Int) (rest : List Char)
    (hrest : headNotDigit rest) :
    parseNumber (intChars n ++ rest) = some (.num n, rest) := by
  cases n with
  | ofNat m =>
    obtain ⟨l, hl, hne, hlt, hval⟩ := natChars_spec m
    obtain ⟨d, ds, rfl⟩ := List.exists_cons_of_ne_nil hne
    show parseNumber (natChars m ++ rest) = _
    rw [hl]
    show parseNumber (hexDigit d :: (ds.map hexDigit ++ rest)) = _
    have hdig : isDigitC (hexDigit d) = true :=
      isDigitC_hexDigit d (hlt d (List.mem_cons_self _ _))
    have hminus : hexDigit d ≠ '-' := (isDigitC_facts hdig).2.2.1
    have htd : takeDigits ((d :: ds).map hexDigit ++ rest) =
        (d :: ds, rest) := takeDigits_map _ hlt rest hrest
    simp only [List.map_cons, List.cons_append] at htd
    simp only [List.reverse_cons] at hval
    simp [parseNumber, hminus, htd, hval]
  | negSucc m =>
    obtain ⟨l, hl, hne, hlt, hval⟩ := natChars_spec (m + 1)
    obtain ⟨d, ds, rfl⟩ := List.exists_cons_of_ne_nil hne
    show parseNumber ('-' :: (natChars (m + 1) ++ rest)) = _
    rw [hl]
    have htd : takeDigits ((d :: ds).map hexDigit ++ rest) =
        (d :: ds, rest) := takeDigits_map _ hlt rest hrest
    simp only [List.map_cons, List.cons_append] at htd
    simp only [List.reverse_cons] at hval
    simp [parseNumber, htd, hval, Int.negSucc_eq]

/-- Every printed value begins with a non-whitespace character other than
a closing bracket. -/
theorem printVal_head (v : JVal) :
    ∃ c cs, printVal v = c :: cs ∧ isWs c = false ∧ c ≠ ']' := by
  cases v with
  | null =>
    exact ⟨'n', ['u', 'l', 'l'], by simp [printVal], by decide, by decide⟩
  | bool b =>
    cases b with
    | true =>
      exact ⟨'t', ['r', 'u', 'e'], by simp [printVal], by decide, by decide⟩
    | false =>
      exact ⟨'f', ['a', 'l', 's', 'e'], by simp [printVal], by decide,
        by decide⟩
  | str s =>
    exact ⟨'"', encodeChars s.data, by simp [printVal], by decide,
      by decide⟩
  | num n =>
    cases n with
    | ofNat m =>
      obtain ⟨l, hl, hne, hlt, _⟩ := natChars_spec m
      obtain ⟨d, ds, rfl⟩ := List.exists_cons_of_ne_nil hne
      have hfacts := isDigitC_facts
        (isDigitC_hexDigit d (hlt d (List.mem_cons_self _ _)))
      refine ⟨hexDigit d, ds.map hexDigit, ?_, hfacts.1, hfacts.2.1⟩
      simp [printVal, intChars, hl]
    | negSucc m =>
      exact ⟨'-', natChars (m + 1), by simp [printVal, intChars],
        by decide, by decide⟩
  | arr xs =>
    cases xs with
    | nil => exact ⟨'[', [']'], by simp [printVal], by decide, by decide⟩
    | cons x xs =>
      exact ⟨'[', printElems x xs ++ [']'], by simp [printVal], by decide,
        by decide⟩
  | obj kvs =>
    cases kvs with
    | nil =>
      exact ⟨lbrace, [rbrace], by simp [printVal], by decide, by decide⟩
    | cons kv kvs =>
      obtain ⟨k, v⟩ := kv
      exact ⟨lbrace, printMembers k v kvs ++ [rbrace], by simp [printVal],
        by decide, by decide⟩

/-- A non-empty element list prints as its head's text followed by a
tail. -/
theorem printElems_shape (x : JVal) (xs : List JVal) :
    ∃ t, printElems x xs = printVal x ++ t := by
  cases xs with
  | nil => exact ⟨[], by simp [printElems]⟩
  | cons y ys => exact ⟨',' :: printElems y ys, by simp [printElems]⟩

/-- A non-empty member list prints as the quoted head key, a colon, the
head value's text, and a tail. -/
theorem printMembers_shape (k : String) (v : JVal)
    (kvs : List (String × JVal)) :
    ∃ t, printMembers k v kvs =
      '"' :: (encodeChars k.data ++ ':' :: (printVal v ++ t)) := by
  cases kvs with
  | nil => exact ⟨[], by simp [printMembers]⟩
  | cons kv kvs =>
    obtain ⟨k2, v2⟩ := kv
    exact ⟨',' :: printMembers k2 v2 kvs, by simp [printMembers]⟩

/-- Decoding any value costs at least one unit of fuel. -/
theorem jsize_pos (v : JVal) : 1 ≤ jsize v := by
  cases v with
  | null => simp [jsize]
  | bool b => simp [jsize]
  | str s => simp [jsize]
  | num n => simp [jsize]
  | arr xs =>
    cases xs with
    | nil => simp [jsize]
    | cons x xs => simp [jsize]
  | obj kvs =>
    cases kvs with
    | nil => simp [jsize]
    | cons kv kvs =>
      obtain ⟨k, v⟩ := kv
      simp [jsize]

/-- Decoding a non-empty element list costs at least one unit of fuel. -/
theorem jsizeE_pos (x : JVal) (xs : List JVal) : 1 ≤ jsizeE x xs := by
  cases xs with
  | nil => simp only [jsizeE]; omega
  | cons y ys => simp only [jsizeE]; omega

/-- Decoding a non-empty member list costs at least one unit of fuel. -/
theorem jsizeM_pos (v : JVal) (kvs : List (String × JVal)) :
    1 ≤ jsizeM v kvs := by
  cases kvs with
  | nil => simp only [jsizeM]; omega
  | cons kv kvs =>
    obtain ⟨k2, v2⟩ := kv
    simp only [jsizeM]; omega

/-- A rest beginning with a non-digit character never extends a decoded
number. -/
theorem headNotDigit_cons {c : Char} (h : isDigitC c = false)
    (cs : List Char) : headNotDigit (c :: cs) := h

/-- Lists have positive size. -/
theorem sizeOf_list_pos {α : Type} [SizeOf α] (l : List α) :
    0 < sizeOf l := by
  cases l <;> simp_arith

/-- The second component of a pair is smaller than the pair. -/
theorem sizeOf_snd_lt {α β : Type} [SizeOf α] [SizeOf β] (p : α × β) :
    sizeOf p.2 < sizeOf p := by
  obtain ⟨a, b⟩ := p
  simp_arith

mutual

/-- With enough fuel, decoding the printed text of a value (followed by
any rest that does not begin with a digit) recovers the value exactly. -/
theorem parse_printVal (v : JVal) (fuel : Nat) (rest : List Char)
    (hf : jsize v ≤ fuel) (hrest : headNotDigit rest) :
    parseVal fuel (printVal v ++ rest) = some (v, rest) := by
  obtain ⟨f, rfl⟩ : ∃ f, fuel = f + 1 :=
    ⟨fuel - 1, by have h1 := jsize_pos v; omega⟩
  cases v with
  | null =>
    have hp : printVal .null ++ rest = 'n' :: ('u' :: 'l' :: 'l' :: rest) := by
      simp [printVal]
    rw [hp]
    simp +decide [parseVal, skipWs, expectTail]
  | bool b =>
    cases b with
    | true =>
      have hp : printVal (.bool true) ++ rest =
          't' :: ('r' :: 'u' :: 'e' :: rest) := by
        simp [printVal]
      rw [hp]
      simp +decide [parseVal, skipWs, expectTail]
    | false =>
      have hp : printVal (.bool false) ++ rest =
          'f' :: ('a' :: 'l' :: 's' :: 'e' :: rest) := by
        simp [printVal]
      rw [hp]
      simp +decide [parseVal, skipWs, expectTail]
  | str s =>
    obtain ⟨sd⟩ := s
    have hp : printVal (.str ⟨sd⟩) ++ rest = '"' :: (encodeChars sd ++ rest) := by
      simp [printVal]
    rw [hp]
    simp +decide [parseVal, skipWs, encodeChars_parse]
  | num n =>
    cases n with
    | ofNat m =>
      obtain ⟨l, hl, hne, hlt, _⟩ := natChars_spec m
      obtain ⟨d, ds, rfl⟩ := List.exists_cons_of_ne_nil hne
      have hd10 : d < 10 := hlt d (List.mem_cons_self _ _)
      obtain ⟨hws, hrb, hmin, hqu, hth, hfa, hnn, hlb, hbr⟩ :=
        isDigitC_facts (isDigitC_hexDigit d hd10)
      have hp : printVal (.num (Int.ofNat m)) ++ rest =
          hexDigit d :: (ds.map hexDigit ++ rest) := by
        simp [printVal, intChars, hl]
      have hnum : parseNumber (hexDigit d :: (ds.map hexDigit ++ rest)) =
          some (.num (Int.ofNat m), rest) := by
        have h0 := parseNumber_intChars (Int.ofNat m) rest hrest
        rw [show intChars (Int.ofNat m) ++ rest =
          hexDigit d :: (ds.map hexDigit ++ rest) from by
            simp [intChars, hl]] at h0
        exact h0
      rw [hp]
      simp only [parseVal]
      rw [skipWs_cons _ hws]
      simp +decide [hqu, hth, hfa, hnn, hlb, hbr,
        isDigitC_hexDigit d hd10, hnum]
    | negSucc m =>
      have hp : printVal (.num (Int.negSucc m)) ++ rest =
          '-' :: (natChars (m + 1) ++ rest) := by
        simp [printVal, intChars]
      have hnum : parseNumber ('-' :: (natChars (m + 1) ++ rest)) =
          some (.num (Int.negSucc m), rest) := by
        have h0 := parseNumber_intChars (Int.negSucc m) rest hrest
        rw [show intChars (Int.negSucc m) ++ rest =
          '-' :: (natChars (m + 1) ++ rest) from by simp [intChars]] at h0
        exact h0
      rw [hp]
      simp +decide [parseVal, skipWs, hnum]
  | arr xs =>
    cases xs with
    | nil =>
      have hp : printVal (.arr []) ++ rest = '[' :: (']' :: rest) := by
        simp [printVal]
      rw [hp]
      simp +decide [parseVal, skipWs]
    | cons x xs =>
      obtain ⟨t, ht⟩ := printElems_shape x xs
      obtain ⟨c, cs, hc, hws, hnr⟩ := printVal_head x
      have hfE : jsizeE x xs ≤ f := by simp only [jsize] at hf; omega
      have hp : printVal (.arr (x :: xs)) ++ rest =
          '[' :: (printElems x xs ++ (']' :: rest)) := by
        simp [printVal]
      have hp2 : printElems x xs ++ (']' :: rest) =
          c :: (cs ++ (t ++ (']' :: rest))) := by
        rw [ht, hc]
        simp
      have hskip2 : skipWs (printElems x xs ++ (']' :: rest)) =
          c :: (cs ++ (t ++ (']' :: rest))) := by
        rw [hp2]
        exact skipWs_cons _ hws
      have hpe2 : parseElems f (c :: (cs ++ (t ++ (']' :: rest)))) =
          some (x :: xs, rest) := by
        rw [← hp2]
        exact parse_printElems x xs f rest hfE
      rw [hp]
      simp only [parseVal]
      rw [skipWs_cons _ (by decide)]
      simp +decide [hskip2, hpe2, hnr]
  | obj kvs =>
    cases kvs with
    | nil =>
      have hp : printVal (.obj []) ++ rest = lbrace :: (rbrace :: rest) := by
        simp [printVal]
      rw [hp]
      simp +decide [parseVal, skipWs]
    | cons kv kvs =>
      have hdec1 : sizeOf kv.2 < sizeOf kv := sizeOf_snd_lt kv
      obtain ⟨t, ht⟩ := printMembers_shape kv.1 kv.2 kvs
      have hf2 : jsize (.obj ((kv.1, kv.2) :: kvs)) ≤ f + 1 := hf
      have hfM : jsizeM kv.2 kvs ≤ f := by
        simp only [jsize] at hf2
        omega
      have hp : printVal (.obj (kv :: kvs)) ++ rest =
          lbrace :: (printMembers kv.1 kv.2 kvs ++ (rbrace :: rest)) := by
        rw [printVal.eq_def]
        simp
      have hp2 : printMembers kv.1 kv.2 kvs ++ (rbrace :: rest) =
          '"' :: (encodeChars kv.1.data ++ ':' ::
            (printVal kv.2 ++ (t ++ (rbrace :: rest)))) := by
        rw [ht]
        simp
      have hskip2 : skipWs (printMembers kv.1 kv.2 kvs ++ (rbrace :: rest)) =
          '"' :: (encodeChars kv.1.data ++ ':' ::
            (printVal kv.2 ++ (t ++ (rbrace :: rest)))) := by
        rw [hp2]
        exact skipWs_cons _ (by decide)
      have hpm2 : parseMembers f
          ('"' :: (encodeChars kv.1.data ++ ':' ::
            (printVal kv.2 ++ (t ++ (rbrace :: rest))))) =
          some ((kv.1, kv.2) :: kvs, rest) := by
        rw [← hp2]
        exact parse_printMembers kv.1 kv.2 kvs f rest hfM
      rw [hp]
      simp only [parseVal]
      rw [skipWs_cons _ (by decide)]
      simp +decide [hskip2, hpm2]
termination_by sizeOf v
decreasing_by all_goals (subst_vars; simp_wf; try omega)

/-- With enough fuel, decoding the printed comma-separated elements of a
non-empty array followed by the closing bracket recovers the element
list. -/
theorem parse_printElems (x : JVal) (xs : List JVal) (fuel : Nat)
    (rest : List Char) (hf : jsizeE x xs ≤ fuel) :
    parseElems fuel (printElems x xs ++ (']' :: rest)) =
      some (x :: xs, rest) := by
  obtain ⟨f, rfl⟩ : ∃ f, fuel = f + 1 :=
    ⟨fuel - 1, by have h1 := jsizeE_pos x xs; omega⟩
  cases xs with
  | nil =>
    have hfx : jsize x ≤ f := by simp only [jsizeE] at hf; omega
    have hp : printElems x [] ++ (']' :: rest) =
        printVal x ++ (']' :: rest) := by
      simp [printElems]
    have h1 : parseVal f (printVal x ++ (']' :: rest)) =
        some (x, ']' :: rest) :=
      parse_printVal x f (']' :: rest) hfx (headNotDigit_cons (by decide) _)
    rw [hp]
    simp +decide [parseElems, h1, skipWs]
  | cons y ys =>
    have hfx : jsize x ≤ f := by simp only [jsizeE] at hf; omega
    have hfy : jsizeE y ys ≤ f := by simp only [jsizeE] at hf; omega
    have hp : printElems x (y :: ys) ++ (']' :: rest) =
        printVal x ++ (',' :: (printElems y ys ++ (']' :: rest))) := by
      simp [printElems]
    have h1 : parseVal f
        (printVal x ++ (',' :: (printElems y ys ++ (']' :: rest)))) =
        some (x, ',' :: (printElems y ys ++ (']' :: rest))) :=
      parse_printVal x f _ hfx (headNotDigit_cons (by decide) _)
    have h2 : parseElems f (printElems y ys ++ (']' :: rest)) =
        some (y :: ys, rest) := parse_printElems y ys f rest hfy
    rw [hp]
    simp +decide [parseElems, h1, h2, skipWs]
termination_by sizeOf x + sizeOf xs
decreasing_by all_goals (subst_vars; simp_wf; try omega)

/-- With enough fuel, decoding the printed comma-separated members of a
non-empty object followed by the closing brace recovers the member
list. -/
theorem parse_printMembers (k : String) (v : JVal)
    (kvs : List (String × JVal)) (fuel : Nat) (rest : List Char)
    (hf : jsizeM v kvs ≤ fuel) :
    parseMembers fuel (printMembers k v kvs ++ (rbrace :: rest)) =
      some ((k, v) :: kvs, rest) := by
  obtain ⟨f, rfl⟩ : ∃ f, fuel = f + 1 :=
    ⟨fuel - 1, by have h1 := jsizeM_pos v kvs; omega⟩
  obtain ⟨kd⟩ := k
  cases kvs with
  | nil =>
    have hfv : jsize v ≤ f := by simp only [jsizeM] at hf; omega
    have hp : printMembers ⟨kd⟩ v [] ++ (rbrace :: rest) =
        '"' :: (encodeChars kd ++ (':' :: (printVal v ++ (rbrace :: rest)))) := by
      simp [printMembers]
    have h1 : parseStringBody
        (encodeChars kd ++ (':' :: (printVal v ++ (rbrace :: rest)))) =
        some (kd, ':' :: (printVal v ++ (rbrace :: rest))) :=
      encodeChars_parse _ _
    have h2 : parseVal f (printVal v ++ (rbrace :: rest)) =
        some (v, rbrace :: rest) :=
      parse_printVal v f _ hfv (headNotDigit_cons (by decide) _)
    rw [hp]
    simp +decide [parseMembers, h1, h2, skipWs]
  | cons kv kvs =>
    have hdec1 : sizeOf kv.2 < sizeOf kv := sizeOf_snd_lt kv
    have hf2 : jsizeM v ((kv.1, kv.2) :: kvs) ≤ f + 1 := hf
    have hfv : jsize v ≤ f := by
      simp only [jsizeM] at hf2
      omega
    have hfm : jsizeM kv.2 kvs ≤ f := by
      simp only [jsizeM] at hf2
      omega
    have hp : printMembers ⟨kd⟩ v (kv :: kvs) ++ (rbrace :: rest) =
        '"' :: (encodeChars kd ++ (':' :: (printVal v ++
          (',' :: (printMembers kv.1 kv.2 kvs ++ (rbrace :: rest)))))) := by
      rw [printMembers.eq_def]
      simp
    have h1 : parseStringBody (encodeChars kd ++ (':' :: (printVal v ++
        (',' :: (printMembers kv.1 kv.2 kvs ++ (rbrace :: rest)))))) =
        some (kd, ':' :: (printVal v ++
          (',' :: (printMembers kv.1 kv.2 kvs ++ (rbrace :: rest))))) :=
      encodeChars_parse _ _
    have h2 : parseVal f (printVal v ++
        (',' :: (printMembers kv.1 kv.2 kvs ++ (rbrace :: rest)))) =
        some (v, ',' :: (printMembers kv.1 kv.2 kvs ++ (rbrace :: rest))) :=
      parse_printVal v f _ hfv (headNotDigit_cons (by decide) _)
    have h3 : parseMembers f
        (printMembers kv.1 kv.2 kvs ++ (rbrace :: rest)) =
        some ((kv.1, kv.2) :: kvs, rest) :=
      parse_printMembers kv.1 kv.2 kvs f rest hfm
    rw [hp]
    simp +decide [parseMembers, h1, h2, h3, skipWs]
termination_by sizeOf v + sizeOf kvs
decreasing_by all_goals (subst_vars; simp_wf; try omega)

end

/-- A printed integer is at least one character long. -/
theorem intChars_length_pos (n : Int) : 1 ≤ (intChars n).length := by
  cases n with
  | ofNat m =>
    obtain ⟨l, hl, hne, _, _⟩ := natChars_spec m
    obtain ⟨d, ds, rfl⟩ := List.exists_cons_of_ne_nil hne
    simp [intChars, hl]
  | negSucc m => simp [intChars]

mutual

/-- The fuel needed for a value is at most its printed length. -/
theorem jsize_le_print (v : JVal) : jsize v ≤ (printVal v).length := by
  cases v with
  | null => simp [jsize, printVal]
  | bool b => cases b <;> simp [jsize, printVal]
  | str s => simp [jsize, printVal]
  | num n =>
    have h := intChars_length_pos n
    simp only [jsize]
    rw [show printVal (.num n) = intChars n from by simp [printVal]]
    omega
  | arr xs =>
    cases xs with
    | nil => simp [jsize, printVal]
    | cons x xs =>
      have h := jsizeE_le_print x xs
      simp only [jsize]
      rw [show printVal (.arr (x :: xs)) =
        '[' :: (printElems x xs ++ [']']) from by simp [printVal]]
      simp only [List.length_cons, List.length_append,
        List.length_singleton]
      omega
  | obj kvs =>
    cases kvs with
    | nil => simp [jsize, printVal]
    | cons kv kvs =>
      have hdec1 : sizeOf kv.2 < sizeOf kv := sizeOf_snd_lt kv
      have h := jsizeM_le_print kv.1 kv.2 kvs
      have he : jsize (.obj (kv :: kvs)) = 1 + jsizeM kv.2 kvs := by
        rw [jsize.eq_def]
      rw [he]
      rw [show printVal (.obj (kv :: kvs)) =
        lbrace :: (printMembers kv.1 kv.2 kvs ++ [rbrace]) from by
          rw [printVal.eq_def]]
      simp only [List.length_cons, List.length_append,
        List.length_singleton]
      omega
termination_by sizeOf v
decreasing_by all_goals (subst_vars; simp_wf; try omega)

/-- The fuel needed for a non-empty element list is at most its printed
length plus one. -/
theorem jsizeE_le_print (x : JVal) (xs : List JVal) :
    jsizeE x xs ≤ (printElems x xs).length + 1 := by
  cases xs with
  | nil =>
    have h := jsize_le_print x
    rw [show printElems x [] = printVal x from by simp [printElems]]
    simp only [jsizeE]
    omega
  | cons y ys =>
    have h1 := jsize_le_print x
    have h2 := jsizeE_le_print y ys
    simp only [jsizeE]
    rw [show printElems x (y :: ys) =
      printVal x ++ ',' :: printElems y ys from by simp [printElems]]
    simp only [List.length_append, List.length_cons]
    omega
termination_by sizeOf x + sizeOf xs
decreasing_by all_goals (subst_vars; simp_wf; try omega)

/-- The fuel needed for a non-empty member list is at most its printed
length plus one. -/
theorem jsizeM_le_print (k : String) (v : JVal)
    (kvs : List (String × JVal)) :
    jsizeM v kvs ≤ (printMembers k v kvs).length + 1 := by
  cases kvs with
  | nil =>
    have h := jsize_le_print v
    simp only [jsizeM]
    rw [show printMembers k v [] =
      ('"' :: encodeChars k.data) ++ ':' :: printVal v from by
        simp [printMembers]]
    simp only [List.length_append, List.length_cons]
    omega
  | cons kv kvs =>
    have hdec1 : sizeOf kv.2 < sizeOf kv := sizeOf_snd_lt kv
    have h1 := jsize_le_print v
    have h2 := jsizeM_le_print kv.1 kv.2 kvs
    have he : jsizeM v (kv :: kvs) = 1 + jsize v + jsizeM kv.2 kvs := by
      rw [jsizeM.eq_def]
    rw [he]
    rw [show printMembers k v (kv :: kvs) =
      (('"' :: encodeChars k.data) ++ ':' :: printVal v) ++
        ',' :: printMembers kv.1 kv.2 kvs from by rw [printMembers.eq_def]]
    simp only [List.length_append, List.length_cons]
    omega
termination_by sizeOf v + sizeOf kvs
decreasing_by all_goals (subst_vars; simp_wf; try omega)

end

/-- Decoding the encoded text of any JSON value recovers it exactly. -/
theorem loads_dumps (v : JVal) : loads (dumps v) = some v := by
  have hfuel : jsize v ≤ (printVal v).length + 1 :=
    le_trans (jsize_le_print v) (Nat.le_succ _)
  have h1 : parseVal ((printVal v).length + 1) (printVal v) =
      some (v, []) := by
    have h0 := parse_printVal v ((printVal v).length + 1) [] hfuel trivial
    simpa using h0
  show (match parseVal (((String.mk (printVal v)).data).length + 1)
      ((String.mk (printVal v)).data) with
    | some (v, rest) => if (skipWs rest).isEmpty then some v else none
    | none => none) = some v
  rw [show ((String.mk (printVal v)).data) = printVal v from rfl, h1]
  rfl

/-- C8: serializing a ResultSet produced by `lookup_metadata` to its JSON
output schema (`json.dumps` at `src/main.py` line 143) and parsing it back
(`json.loads`) yields an equal ResultSet — the shape round-trips through
JSON encode/decode without loss. -/
theorem C8_json_roundtrip (env : Env) (lines : List String) :
    loads (dumps (.arr (lookup_metadata env lines))) =
      some (.arr (lookup_metadata env lines)) :=
  loads_dumps (.arr (lookup_metadata env lines))

end CDSpine
